import Mathlib

/-!
Shallow embedding of the GreenPix behaviour-tree library.

The embedding follows the source files:
* `src/tree/non_optimized.rs` — the recursive runtime (`Node`, `visit`);
* `src/tree/mod.rs`           — the flat "optimized" runtime (`OptNode`, `optVisit`),
  the shared `VisitResult`, `StoreKind` and `Context` types;
* `src/tree/factory.rs`       — the factory tree (`NodeFactory`, `instanciate`, `optimize`);
* `src/standard/expressions.rs` — the postfix expression compiler and evaluator;
* `src/standard/mod.rs`       — the standard leaf registry.

Modelling conventions:
* Leaf behaviours are closures with private mutable state in the source
  (`Box<BehaviourTreeNode>`); they are modelled by an opaque state type `L`
  together with a tick function `tick : L → Context → VisitResult × L × Context`
  threading both the leaf state and the context.
* `&mut` mutation is modelled by explicit state passing: every visit returns the
  updated node (carrying updated composite resumption state and leaf states)
  and the updated context.
* `HashMap<String, StoreKind>` is modelled as an association list with at most
  the usual lookup operations used by the code (`contains_key`, `get`, `insert`).
* Rust panics (`panic!`, `unimplemented!`, `expect`, failed `assert!`, division
  by zero) are modelled by `Option`/`none`.
-/

/-- `VisitResult` from `src/tree/mod.rs`. -/
inductive VisitResult where
  | Success
  | Failure
  | Running
deriving DecidableEq, Repr

/-- `StoreKind` from `src/tree/mod.rs`: values stored in the context map. -/
inductive StoreKind where
  | string (s : String)
  | i64 (n : Int)
deriving DecidableEq, Repr

/-- `Context` from `src/tree/mod.rs`: the embedder-owned state threaded through
every tick.  The `HashMap<String, StoreKind>` is modelled as an association
list (one binding per key). -/
structure Context where
  map : List (String × StoreKind)
deriving DecidableEq, Repr

/-- `HashMap::contains_key`. -/
def Context.containsKey (c : Context) (k : String) : Bool :=
  c.map.any (fun p => p.1 = k)

/-- `HashMap::get`. -/
def Context.get (c : Context) (k : String) : Option StoreKind :=
  (c.map.find? (fun p => p.1 = k)).map (fun p => p.2)

/-- `Node` from `src/tree/non_optimized.rs`: the recursive runtime tree.
`L` is the opaque type of leaf behaviours.  `SequenceNode` and `SelectorNode`
carry their `running: Option<usize>` resumption index; `PriorityNode` has no
state; `BlackboardNode` carries its key and single boxed child; `InverterNode`
its single boxed child. -/
inductive Node (L : Type) where
  | leaf (behaviour : L)
  | sequence (running : Option Nat) (children : List (Node L))
  | priority (children : List (Node L))
  | selector (running : Option Nat) (children : List (Node L))
  | blackboard (child : Node L) (key : String)
  | inverter (child : Node L)

section RecursiveRuntime

variable {L : Type} (tick : L → Context → VisitResult × L × Context)

mutual

/-- `BehaviourTreeNode::visit` for the recursive runtime
(`src/tree/non_optimized.rs`).  Dispatches on the node kind exactly as the
`impl BehaviourTreeNode for Node` match does. -/
def visit : Node L → Context → VisitResult × Node L × Context
  | Node.leaf l, c =>
      let (r, l2, c2) := tick l c
      (r, Node.leaf l2, c2)
  | Node.sequence running cs, c =>
      -- SequenceNode::visit: `let start = self.running.take().unwrap_or(0);`
      -- the stored index is cleared here and re-set only in the Running branch.
      let start := running.getD 0
      let (r, running2, cs2, c2) := seqLoop cs start c start
      (r, Node.sequence running2 cs2, c2)
  | Node.priority cs, c =>
      let (r, cs2, c2) := prioLoop cs c
      (r, Node.priority cs2, c2)
  | Node.selector running cs, c =>
      -- SelectorNode::visit: `let start = self.running.take().unwrap_or(0);`
      let start := running.getD 0
      let (r, running2, cs2, c2) := selLoop cs start c start
      (r, Node.selector running2 cs2, c2)
  | Node.blackboard child key, c =>
      -- BlackboardNode::visit: fail without touching the child when the key
      -- is absent from the context map.
      if c.containsKey key then
        let (r, child2, c2) := visit child c
        (r, Node.blackboard child2 key, c2)
      else
        (VisitResult.Failure, Node.blackboard child key, c)
  | Node.inverter child, c =>
      let (r, child2, c2) := visit child c
      match r with
      | VisitResult.Success => (VisitResult.Failure, Node.inverter child2, c2)
      | VisitResult.Failure => (VisitResult.Success, Node.inverter child2, c2)
      | VisitResult.Running => (VisitResult.Running, Node.inverter child2, c2)

/-- The loop of `SequenceNode::visit`: iterate `children[start..]`, so the
first `skip` children are passed through untouched; `i` is the absolute index
(`start + pos`) stored on a `Running` return.  Returns
(result, new `running` field, updated children, updated context). -/
def seqLoop : List (Node L) → Nat → Context → Nat →
    VisitResult × Option Nat × List (Node L) × Context
  | [], _, c, _ => (VisitResult.Success, none, [], c)
  | child :: rest, skip + 1, c, i =>
      let (r, running2, rest2, c2) := seqLoop rest skip c i
      (r, running2, child :: rest2, c2)
  | child :: rest, 0, c, i =>
      match visit child c with
      | (VisitResult.Failure, child2, c2) =>
          (VisitResult.Failure, none, child2 :: rest, c2)
      | (VisitResult.Running, child2, c2) =>
          (VisitResult.Running, some i, child2 :: rest, c2)
      | (VisitResult.Success, child2, c2) =>
          let (r, running2, rest2, c3) := seqLoop rest 0 c2 (i + 1)
          (r, running2, child2 :: rest2, c3)

/-- The loop of `SelectorNode::visit` (`src/tree/non_optimized.rs` lines
88–105).  NOTE: the source's `Success` arm reads
`VisitResult::Success => return VisitResult::Failure,` — on the first child
returning `Success` the selector returns `Failure`.  The embedding reproduces
this faithfully. -/
def selLoop : List (Node L) → Nat → Context → Nat →
    VisitResult × Option Nat × List (Node L) × Context
  | [], _, c, _ => (VisitResult.Failure, none, [], c)
  | child :: rest, skip + 1, c, i =>
      let (r, running2, rest2, c2) := selLoop rest skip c i
      (r, running2, child :: rest2, c2)
  | child :: rest, 0, c, i =>
      match visit child c with
      | (VisitResult.Success, child2, c2) =>
          (VisitResult.Failure, none, child2 :: rest, c2)
      | (VisitResult.Running, child2, c2) =>
          (VisitResult.Running, some i, child2 :: rest, c2)
      | (VisitResult.Failure, child2, c2) =>
          let (r, running2, rest2, c3) := selLoop rest 0 c2 (i + 1)
          (r, running2, child2 :: rest2, c3)

/-- The loop of `PriorityNode::visit`: iterate all children from 0, no state. -/
def prioLoop : List (Node L) → Context → VisitResult × List (Node L) × Context
  | [], c => (VisitResult.Success, [], c)
  | child :: rest, c =>
      match visit child c with
      | (VisitResult.Failure, child2, c2) =>
          (VisitResult.Failure, child2 :: rest, c2)
      | (VisitResult.Running, child2, c2) =>
          (VisitResult.Running, child2 :: rest, c2)
      | (VisitResult.Success, child2, c2) =>
          let (r, rest2, c3) := prioLoop rest c2
          (r, child2 :: rest2, c3)

end

end RecursiveRuntime

/-- `OptimizedNode` from `src/tree/mod.rs`: the node records of the flat
array-backed runtime.  The `flat_tree` crate stores these in pre-order with
contiguous child ranges; `ChildrenMut` iterates a node's direct children.
That array-with-child-ranges representation is isomorphic to a tree whose
nodes carry their direct children, which is how it is modelled here.
`Inverter` and `Blackboard` access only child `0` (via
`children.get_mut(0).expect(..)`) and the flattener always gives them exactly
one child (from the `Box`ed child of their factories), so they are modelled
with a single-child field. -/
inductive OptNode (L : Type) where
  | leaf (behaviour : L)
  | sequence (running : Option Nat) (children : List (OptNode L))
  | inverter (child : OptNode L)
  | priority (children : List (OptNode L))
  | blackboard (key : String) (child : OptNode L)
  | selector (running : Option Nat) (children : List (OptNode L))

section OptimizedRuntime

variable {L : Type} (tick : L → Context → VisitResult × L × Context)

mutual

/-- `OptimizedNode::visit` from `src/tree/mod.rs`: dispatch on the node kind. -/
def optVisit : OptNode L → Context → VisitResult × OptNode L × Context
  | OptNode.leaf l, c =>
      let (r, l2, c2) := tick l c
      (r, OptNode.leaf l2, c2)
  | OptNode.sequence running cs, c =>
      -- OptimizedSequenceNode::visit:
      -- `let mut index = self.running.unwrap_or(0);` — the stored index is
      -- read but NOT cleared; `self.running` is written only in the
      -- `Running` branch.
      let start := running.getD 0
      let (r, running2, cs2, c2) := optSeqLoop running cs start c start
      (r, OptNode.sequence running2 cs2, c2)
  | OptNode.inverter child, c =>
      -- inverter_visit
      let (r, child2, c2) := optVisit child c
      match r with
      | VisitResult.Success => (VisitResult.Failure, OptNode.inverter child2, c2)
      | VisitResult.Failure => (VisitResult.Success, OptNode.inverter child2, c2)
      | VisitResult.Running => (VisitResult.Running, OptNode.inverter child2, c2)
  | OptNode.priority cs, c =>
      -- priority_visit
      let (r, cs2, c2) := optPrioLoop cs c
      (r, OptNode.priority cs2, c2)
  | OptNode.blackboard key child, c =>
      -- OptimizedBlackboardNode::visit
      if c.containsKey key then
        let (r, child2, c2) := optVisit child c
        (r, OptNode.blackboard key child2, c2)
      else
        (VisitResult.Failure, OptNode.blackboard key child, c)
  | OptNode.selector running cs, c =>
      -- OptimizedSelectorNode::visit: same non-clearing of `running` as the
      -- optimized sequence.
      let start := running.getD 0
      let (r, running2, cs2, c2) := optSelLoop running cs start c start
      (r, OptNode.selector running2 cs2, c2)

/-- The loop of `OptimizedSequenceNode::visit`.  `run0` is the incoming value
of the `running` field: the field is mutated only in the `Running` branch, so
on the `Failure` and exhaustion exits it keeps `run0`. -/
def optSeqLoop (run0 : Option Nat) : List (OptNode L) → Nat → Context → Nat →
    VisitResult × Option Nat × List (OptNode L) × Context
  | [], _, c, _ => (VisitResult.Success, run0, [], c)
  | child :: rest, skip + 1, c, i =>
      let (r, running2, rest2, c2) := optSeqLoop run0 rest skip c i
      (r, running2, child :: rest2, c2)
  | child :: rest, 0, c, i =>
      match optVisit child c with
      | (VisitResult.Running, child2, c2) =>
          (VisitResult.Running, some i, child2 :: rest, c2)
      | (VisitResult.Failure, child2, c2) =>
          (VisitResult.Failure, run0, child2 :: rest, c2)
      | (VisitResult.Success, child2, c2) =>
          let (r, running2, rest2, c3) := optSeqLoop run0 rest 0 c2 (i + 1)
          (r, running2, child2 :: rest2, c3)

/-- The loop of `OptimizedSelectorNode::visit` (`src/tree/mod.rs` lines
141–165): first `Success` returns `Success`; `Failure` continues; `Running`
stores the index; exhaustion returns `Failure`.  As in the optimized
sequence, `running` is written only in the `Running` branch. -/
def optSelLoop (run0 : Option Nat) : List (OptNode L) → Nat → Context → Nat →
    VisitResult × Option Nat × List (OptNode L) × Context
  | [], _, c, _ => (VisitResult.Failure, run0, [], c)
  | child :: rest, skip + 1, c, i =>
      let (r, running2, rest2, c2) := optSelLoop run0 rest skip c i
      (r, running2, child :: rest2, c2)
  | child :: rest, 0, c, i =>
      match optVisit child c with
      | (VisitResult.Running, child2, c2) =>
          (VisitResult.Running, some i, child2 :: rest, c2)
      | (VisitResult.Success, child2, c2) =>
          (VisitResult.Success, run0, child2 :: rest, c2)
      | (VisitResult.Failure, child2, c2) =>
          let (r, running2, rest2, c3) := optSelLoop run0 rest 0 c2 (i + 1)
          (r, running2, child2 :: rest2, c3)

/-- The loop of `priority_visit` from `src/tree/mod.rs`. -/
def optPrioLoop : List (OptNode L) → Context → VisitResult × List (OptNode L) × Context
  | [], c => (VisitResult.Success, [], c)
  | child :: rest, c =>
      match optVisit child c with
      | (VisitResult.Running, child2, c2) =>
          (VisitResult.Running, child2 :: rest, c2)
      | (VisitResult.Failure, child2, c2) =>
          (VisitResult.Failure, child2 :: rest, c2)
      | (VisitResult.Success, child2, c2) =>
          let (r, rest2, c3) := optPrioLoop rest c2
          (r, child2 :: rest2, c3)

end

end OptimizedRuntime

/-- `NodeFactory` from `src/tree/factory.rs`.  A `LeafNodeFactory` is a
`Box<Fn() -> LeafNode>` minting a fresh leaf behaviour on each call; it is
modelled by the behaviour it mints (of the opaque type `L`). -/
inductive NodeFactory (L : Type) where
  | leaf (factory : L)
  | sequence (children : List (NodeFactory L))
  | priority (children : List (NodeFactory L))
  | selector (children : List (NodeFactory L))
  | blackboard (child : NodeFactory L) (key : String)
  | inverter (child : NodeFactory L)
  | subtree (name : String)

mutual

/-- `NodeFactory::instanciate` from `src/tree/factory.rs`.  Per-kind
`*NodeFactory::instanciate` methods build fresh nodes with `running: None`.
`none` models a panic: `NodeFactory::Subtree` hits
`panic!("Trying to instanciate an unlinked subtree ..")` and
`BlackboardNodeFactory::instanciate` is `unimplemented!()`. -/
def instanciate {L : Type} : NodeFactory L → Option (Node L)
  | NodeFactory.leaf f => some (Node.leaf f)
  | NodeFactory.sequence cs =>
      (instanciateList cs).map (fun l => Node.sequence none l)
  | NodeFactory.priority cs =>
      (instanciateList cs).map (fun l => Node.priority l)
  | NodeFactory.selector cs =>
      (instanciateList cs).map (fun l => Node.selector none l)
  | NodeFactory.blackboard _ _ => none
  | NodeFactory.inverter ch =>
      (instanciate ch).map (fun n => Node.inverter n)
  | NodeFactory.subtree _ => none

/-- Child-by-child instantiation, as in
`self.children.iter().map(|child| child.instanciate()).collect()`;
a panic in any child aborts the whole build. -/
def instanciateList {L : Type} : List (NodeFactory L) → Option (List (Node L))
  | [] => some []
  | f :: rest => do
      let n ← instanciate f
      let ns ← instanciateList rest
      pure (n :: ns)

end

mutual

/-- `TreeFactory::optimize` from `src/tree/factory.rs`.
Modelled from the spec for the external `flat_tree` crate's `FlatTree::new`
driver: "perform a pre-order flattening into the optimized array form.  For
each visited node, emit one optimized-node record and recurse into children;
record the child range."  The per-node record emitted is `optimize_inner`
from the source: leaves mint a fresh behaviour (`leaf()`), composites get
`running: None`, blackboard keeps its key, and a `Subtree` node hits
`panic!("Subtrees are currently unsupported")` (modelled by `none`). -/
def optimize {L : Type} : NodeFactory L → Option (OptNode L)
  | NodeFactory.leaf f => some (OptNode.leaf f)
  | NodeFactory.sequence cs =>
      (optimizeList cs).map (fun l => OptNode.sequence none l)
  | NodeFactory.priority cs =>
      (optimizeList cs).map (fun l => OptNode.priority l)
  | NodeFactory.selector cs =>
      (optimizeList cs).map (fun l => OptNode.selector none l)
  | NodeFactory.blackboard ch key =>
      (optimize ch).map (fun n => OptNode.blackboard key n)
  | NodeFactory.inverter ch =>
      (optimize ch).map (fun n => OptNode.inverter n)
  | NodeFactory.subtree _ => none

/-- Pre-order flattening of a child list; a panic anywhere aborts the build. -/
def optimizeList {L : Type} : List (NodeFactory L) → Option (List (OptNode L))
  | [] => some []
  | f :: rest => do
      let n ← optimize f
      let ns ← optimizeList rest
      pure (n :: ns)

end

mutual

/-- Whether a factory tree contains a `Subtree` node anywhere. -/
def hasSubtree {L : Type} : NodeFactory L → Bool
  | NodeFactory.leaf _ => false
  | NodeFactory.sequence cs => hasSubtreeList cs
  | NodeFactory.priority cs => hasSubtreeList cs
  | NodeFactory.selector cs => hasSubtreeList cs
  | NodeFactory.blackboard ch _ => hasSubtree ch
  | NodeFactory.inverter ch => hasSubtree ch
  | NodeFactory.subtree _ => true

/-- Whether any factory in a list contains a `Subtree` node. -/
def hasSubtreeList {L : Type} : List (NodeFactory L) → Bool
  | [] => false
  | f :: rest => hasSubtree f || hasSubtreeList rest

end

/-- `Operator` from `src/standard/mod.rs`. -/
inductive Operator where
  | Plus
  | Minus
  | Multiply
  | Divide
deriving DecidableEq, Repr

/-- `Value` from `src/standard/mod.rs`: the argument payload of a leaf
invocation.  `HashMap<String, Value>` is modelled as an association list. -/
inductive Value where
  | string (s : String)
  | map (entries : List (String × Value))
  | array (elems : List Value)
  | integer (n : Int)
  | operator (o : Operator)
  | unknown (c : Char)

/-- `PostfixedExpressionMember` from `src/standard/expressions.rs`. -/
inductive PostfixedExpressionMember where
  | Op (o : Operator)
  | Constant (n : Int)
  | Variable (name : String)
deriving DecidableEq, Repr

/-- `generate_postfixed_expression` from `src/standard/expressions.rs`:
one-pass translation of an array of `Value`s; any element other than a
string, an integer or an operator is an error (the source formats the
offending element into the error message; the embedding returns the element
itself). -/
def generate_postfixed_expression : List Value → Except Value (List PostfixedExpressionMember)
  | [] => Except.ok []
  | operand :: rest =>
      match operand with
      | Value.string op =>
          (generate_postfixed_expression rest).map
            (fun ms => PostfixedExpressionMember.Variable op :: ms)
      | Value.integer v =>
          (generate_postfixed_expression rest).map
            (fun ms => PostfixedExpressionMember.Constant v :: ms)
      | Value.operator op =>
          (generate_postfixed_expression rest).map
            (fun ms => PostfixedExpressionMember.Op op :: ms)
      | other => Except.error other

/-- The smallest `i64` value, `-2^63`. -/
def i64Min : Int := -9223372036854775808

/-- The largest `i64` value, `2^63 - 1`. -/
def i64Max : Int := 9223372036854775807

/-- Two's-complement wrap-around into the `i64` range `[-2^63, 2^63)`
(the `%` here is Euclidean remainder, so the result is always in range). -/
def wrapI64 (n : Int) : Int :=
  (n + 9223372036854775808) % 18446744073709551616 - 9223372036854775808

/-- One arithmetic step of `evaluate_expression_int`, on Rust `i64`
semantics: `+`, `-` and `*` wrap around on overflow (the release profile;
debug builds panic instead — the two agree whenever the exact result is in
range); `/` truncates toward zero and panics on a zero divisor and on the
overflowing `i64::MIN / -1` (panics modelled by `none`; a non-overflowing
quotient is always representable). -/
def applyOp (o : Operator) (member1 member2 : Int) : Option Int :=
  match o with
  | Operator.Plus => some (wrapI64 (member1 + member2))
  | Operator.Minus => some (wrapI64 (member1 - member2))
  | Operator.Multiply => some (wrapI64 (member1 * member2))
  | Operator.Divide =>
      if member2 = 0 then none
      else if member1 = i64Min ∧ member2 = -1 then none
      else some (Int.tdiv member1 member2)

/-- The member loop of `evaluate_expression_int`, carrying the evaluation
stack (head = top of stack).  `none` models a panic: a variable that is
missing or not an `I64`, or a stack underflow at an operator
(`stack.pop().expect(..)`). -/
def runExpression (context : Context) :
    List PostfixedExpressionMember → List Int → Option (List Int)
  | [], stack => some stack
  | member :: rest, stack =>
      match member with
      | PostfixedExpressionMember.Constant value =>
          runExpression context rest (value :: stack)
      | PostfixedExpressionMember.Variable name =>
          match context.get name with
          | some (StoreKind.i64 value) => runExpression context rest (value :: stack)
          | _ => none
      | PostfixedExpressionMember.Op op =>
          -- "First member will be the second one in the stack": member2 is
          -- popped first, then member1.
          match stack with
          | member2 :: member1 :: stack2 =>
              match applyOp op member1 member2 with
              | some result => runExpression context rest (result :: stack2)
              | none => none
          | _ => none

/-- `evaluate_expression_int` from `src/standard/expressions.rs`: run the
member loop on an empty stack, pop the result
(`stack.pop().expect("Unexpected absence of result!")`) and require the
remaining stack to be empty (`assert!(stack.is_empty())`).  `none` models the
panics. -/
def evaluate_expression_int (context : Context)
    (expression : List PostfixedExpressionMember) : Option Int :=
  match runExpression context expression [] with
  | some [result] => some result
  | _ => none

/-- The always-`Success` behaviour minted by the `print_text` leaf factory
(`PrintText::visit` prints to stdout, which the embedding drops, and returns
`Success`). -/
def printTextBehaviour : Context → VisitResult × Context :=
  fun c => (VisitResult.Success, c)

/-- `print_text` from `src/standard/mod.rs`: the leaf-factory-factory; it
requires a string option (the source formats non-string options into the
error message). -/
def print_text (options : Option Value) : Except String (Context → VisitResult × Context) :=
  match options with
  | some (Value.string _) => Except.ok printTextBehaviour
  | _ => Except.error "Expected message"

/-- `always_running` from `src/standard/fake_nodes.rs`: accepts any option and
mints a leaf that always returns `Running`.  (The module `fake_nodes` is
commented out in `src/standard/mod.rs`, so this function is never registered.) -/
def always_running (_options : Option Value) : Except String (Context → VisitResult × Context) :=
  Except.ok (fun c => (VisitResult.Running, c))

/-- `LeavesCollection::standard` from `src/standard/mod.rs` (lines 241–251):
the `insert_all!` invocation registers exactly one entry, `"print_text"`;
the `"increment"` line is commented out, and the `fake_nodes`, `expressions`
and `conditions` modules are commented out at the top of the file. -/
def LeavesCollection.standard :
    List (String × (Option Value → Except String (Context → VisitResult × Context))) :=
  [("print_text", print_text)]

/-- Registry lookup, as in `generate_leaf`'s `self.inner.get(name)`. -/
def LeavesCollection.lookup
    (coll : List (String × (Option Value → Except String (Context → VisitResult × Context))))
    (name : String) :
    Option (Option Value → Except String (Context → VisitResult × Context)) :=
  (coll.find? (fun p => p.1 = name)).map (fun p => p.2)

/-- Whether a `Value` is accepted as an operand by
`generate_postfixed_expression`. -/
def isOperand : Value → Bool
  | Value.string _ => true
  | Value.integer _ => true
  | Value.operator _ => true
  | _ => false

/-- Spec-side infix expression trees: the integer expressions a postfix
program can encode. -/
inductive Expr where
  | const (n : Int)
  | var (name : String)
  | binop (o : Operator) (e1 e2 : Expr)

/-- The postfix encoding of an infix expression: operands first, operator
last (reverse-Polish form). -/
def Expr.encode : Expr → List PostfixedExpressionMember
  | Expr.const n => [PostfixedExpressionMember.Constant n]
  | Expr.var name => [PostfixedExpressionMember.Variable name]
  | Expr.binop o e1 e2 => e1.encode ++ e2.encode ++ [PostfixedExpressionMember.Op o]

/-- The exact mathematical result of one arithmetic step, defined (`some`)
only when that result is what the `i64` machine computes: `+`, `-` and `*`
require the exact result to lie in the `i64` range (otherwise the machine
wraps, or panics in debug builds), and `/` excludes the two fatal divisions.
The divide branch is literally that of `applyOp` (every non-overflowing
truncated quotient is exact and representable). -/
def checkedOp (o : Operator) (v1 v2 : Int) : Option Int :=
  match o with
  | Operator.Plus =>
      if i64Min ≤ v1 + v2 ∧ v1 + v2 ≤ i64Max then some (v1 + v2) else none
  | Operator.Minus =>
      if i64Min ≤ v1 - v2 ∧ v1 - v2 ≤ i64Max then some (v1 - v2) else none
  | Operator.Multiply =>
      if i64Min ≤ v1 * v2 ∧ v1 * v2 ≤ i64Max then some (v1 * v2) else none
  | Operator.Divide =>
      if v2 = 0 then none
      else if v1 = i64Min ∧ v2 = -1 then none
      else some (Int.tdiv v1 v2)

/-- The mathematical value of an infix expression against the context's
integer variables: `none` when a referenced variable is missing or not an
`I64`, when an addition, subtraction or multiplication leaves the `i64`
range (overflow), or on a fatal division. -/
def Expr.eval (context : Context) : Expr → Option Int
  | Expr.const n => some n
  | Expr.var name =>
      match context.get name with
      | some (StoreKind.i64 v) => some v
      | _ => none
  | Expr.binop o e1 e2 => do
      let v1 ← e1.eval context
      let v2 ← e2.eval context
      checkedOp o v1 v2

/-- Stack-arity check of a postfix program: starting from `n` values on the
stack, each operand pushes one value and each operator needs two and pushes
one; `none` marks an underflow.  A program is well formed when the check
from `0` ends with exactly one value (`some 1`): otherwise evaluation
underflows or leaves residue on the stack. -/
def checkArity : List PostfixedExpressionMember → Nat → Option Nat
  | [], n => some n
  | m :: rest, n =>
      match m with
      | PostfixedExpressionMember.Op _ =>
          match n with
          | n2 + 2 => checkArity rest (n2 + 1)
          | _ => none
      | _ => checkArity rest (n + 1)

/-- `k`-fold nesting of recursive-runtime inverter nodes. -/
def nestInv {L : Type} : Nat → Node L → Node L
  | 0, ch => ch
  | k + 1, ch => Node.inverter (nestInv k ch)

/-- `k`-fold nesting of optimized-runtime inverter nodes. -/
def optNestInv {L : Type} : Nat → OptNode L → OptNode L
  | 0, ch => ch
  | k + 1, ch => OptNode.inverter (optNestInv k ch)

/-- A leaf behaviour with no state that always returns `r` and leaves the
context untouched (e.g. the behaviours minted by `print_text` and
`always_running`). -/
def constTick (r : VisitResult) : Unit → Context → VisitResult × Unit × Context :=
  fun u c => (r, u, c)

/-- A stateful leaf behaviour whose private state is the list of results it
has still to produce: each tick pops the head (defaulting to `Success`) and
leaves the context untouched.  Used as concrete leaves in counterexamples. -/
def scheduleTick : List VisitResult → Context → VisitResult × List VisitResult × Context :=
  fun sched c => (sched.headD VisitResult.Success, sched.tail, c)

section RunPredicates

variable {L : Type} (tick : L → Context → VisitResult × L × Context)

/-- A run in which every child of a recursive-runtime child list returns
`Success`, threading the context left to right: `AllSucceed tick cs c cs2 c2`
says visiting `cs` in order from context `c` yields `Success` every time,
updated children `cs2` and final context `c2`. -/
inductive AllSucceed : List (Node L) → Context → List (Node L) → Context → Prop where
  | nil (c : Context) : AllSucceed [] c [] c
  | cons {child : Node L} {c : Context} {child2 : Node L} {c2 : Context}
      {rest rest2 : List (Node L)} {c3 : Context} :
      visit tick child c = (VisitResult.Success, child2, c2) →
      AllSucceed rest c2 rest2 c3 →
      AllSucceed (child :: rest) c (child2 :: rest2) c3

/-- `AllSucceed` for the optimized runtime. -/
inductive OptAllSucceed : List (OptNode L) → Context → List (OptNode L) → Context → Prop where
  | nil (c : Context) : OptAllSucceed [] c [] c
  | cons {child : OptNode L} {c : Context} {child2 : OptNode L} {c2 : Context}
      {rest rest2 : List (OptNode L)} {c3 : Context} :
      optVisit tick child c = (VisitResult.Success, child2, c2) →
      OptAllSucceed rest c2 rest2 c3 →
      OptAllSucceed (child :: rest) c (child2 :: rest2) c3

end RunPredicates

/-! ## Theorems -/

/-- C1: The claim states that in both runtimes a selector returns `Success`
as soon as the first child returns `Success`.  The flat runtime does; the
recursive runtime (`SelectorNode::visit`, `src/tree/non_optimized.rs` line
95) returns `Failure` on the first child returning `Success`, contradicting
the doc comment right above it ("returns Success on the first child
returning Success").  Evaluating both runtimes on a selector with a single
always-`Success` child exhibits the divergence. -/
theorem selector_success_inverted_in_recursive_runtime :
    visit (constTick VisitResult.Success)
        (Node.selector none [Node.leaf ()]) ⟨[]⟩
      = (VisitResult.Failure, Node.selector none [Node.leaf ()], ⟨[]⟩)
    ∧ optVisit (constTick VisitResult.Success)
        (OptNode.selector none [OptNode.leaf ()]) ⟨[]⟩
      = (VisitResult.Success, OptNode.selector none [OptNode.leaf ()], ⟨[]⟩) :=
  ⟨rfl, rfl⟩

/-- C2: The claim states that `optimize()` and `instanciate()` produce the
same result sequence for every factory tree and tick sequence.  For the
factory tree `selector { leaf }` with an always-`Success` leaf, the very
first tick differs: the optimized instance returns `Success`, the recursive
instance returns `Failure` (the selector bug of `non_optimized.rs` line 95). -/
theorem optimize_instanciate_first_tick_disagrees :
    (instanciate (NodeFactory.selector [NodeFactory.leaf ()])).map
        (fun t => (visit (constTick VisitResult.Success) t ⟨[]⟩).1)
      = some VisitResult.Failure
    ∧ (optimize (NodeFactory.selector [NodeFactory.leaf ()])).map
        (fun t => (optVisit (constTick VisitResult.Success) t ⟨[]⟩).1)
      = some VisitResult.Success :=
  ⟨rfl, rfl⟩

/-- C3: The claim states that in both runtimes the stored resumption index is
cleared after any visit returning `Success` or `Failure`.  The recursive
runtime clears it (`self.running.take()`), but the flat runtime merely reads
it (`self.running.unwrap_or(0)`, `src/tree/mod.rs` lines 112 and 143) and
writes it only on a `Running` return.  On a sequence of two scheduled leaves
(`Success`-then-defaults and `Running`-then-`Failure`): the first optimized
visit returns `Running` storing index 1; the second returns `Failure` yet
leaves the stored index at `some 1` instead of clearing it; the recursive
runtime on the same configuration returns `Failure` with the index cleared. -/
theorem optimized_sequence_keeps_running_index_after_failure :
    optVisit scheduleTick
        (OptNode.sequence none
          [OptNode.leaf [VisitResult.Success],
           OptNode.leaf [VisitResult.Running, VisitResult.Failure]]) ⟨[]⟩
      = (VisitResult.Running,
         OptNode.sequence (some 1)
           [OptNode.leaf [], OptNode.leaf [VisitResult.Failure]], ⟨[]⟩)
    ∧ optVisit scheduleTick
        (OptNode.sequence (some 1)
          [OptNode.leaf [], OptNode.leaf [VisitResult.Failure]]) ⟨[]⟩
      = (VisitResult.Failure,
         OptNode.sequence (some 1) [OptNode.leaf [], OptNode.leaf []], ⟨[]⟩)
    ∧ visit scheduleTick
        (Node.sequence (some 1)
          [Node.leaf [], Node.leaf [VisitResult.Failure]]) ⟨[]⟩
      = (VisitResult.Failure,
         Node.sequence none [Node.leaf [], Node.leaf []], ⟨[]⟩) :=
  ⟨rfl, rfl, rfl⟩

/-- C6 counterexample: the claim states that the standard registry contains
entries under the five names `print_text`, `always_running`, `evaluate_int`,
`check_condition` and `increment`.  In `LeavesCollection::standard`
(`src/standard/mod.rs`) only `print_text` is registered: the other four
lookups miss. -/
theorem standard_registry_lacks_four_names :
    LeavesCollection.lookup LeavesCollection.standard "always_running" = none
    ∧ LeavesCollection.lookup LeavesCollection.standard "evaluate_int" = none
    ∧ LeavesCollection.lookup LeavesCollection.standard "check_condition" = none
    ∧ LeavesCollection.lookup LeavesCollection.standard "increment" = none :=
  ⟨rfl, rfl, rfl, rfl⟩

/-- C6 (amended): the registry returned by `LeavesCollection::standard`
contains exactly one leaf-factory-factory entry, registered under the name
`print_text`. -/
theorem standard_registry_is_print_text_only :
    LeavesCollection.lookup LeavesCollection.standard "print_text" = some print_text
    ∧ LeavesCollection.standard.map (fun p => p.1) = ["print_text"] :=
  ⟨rfl, rfl⟩

mutual

/-- A factory tree containing a `Subtree` node cannot be instantiated: the
build panics (`NodeFactory::instanciate`, `src/tree/factory.rs` line 190). -/
def hasSubtree_instanciate_none {L : Type} :
    ∀ f : NodeFactory L, hasSubtree f = true → instanciate f = none
  | NodeFactory.leaf _, h => by simp [hasSubtree] at h
  | NodeFactory.sequence cs, h => by
      simp only [hasSubtree] at h
      simp [instanciate, hasSubtreeList_instanciateList_none cs h]
  | NodeFactory.priority cs, h => by
      simp only [hasSubtree] at h
      simp [instanciate, hasSubtreeList_instanciateList_none cs h]
  | NodeFactory.selector cs, h => by
      simp only [hasSubtree] at h
      simp [instanciate, hasSubtreeList_instanciateList_none cs h]
  | NodeFactory.blackboard _ _, _ => by simp [instanciate]
  | NodeFactory.inverter ch, h => by
      simp only [hasSubtree] at h
      simp [instanciate, hasSubtree_instanciate_none ch h]
  | NodeFactory.subtree _, _ => by simp [instanciate]

/-- List version of `hasSubtree_instanciate_none`. -/
def hasSubtreeList_instanciateList_none {L : Type} :
    ∀ fs : List (NodeFactory L), hasSubtreeList fs = true → instanciateList fs = none
  | [], h => by simp [hasSubtreeList] at h
  | f :: rest, h => by
      simp only [hasSubtreeList, Bool.or_eq_true] at h
      cases h with
      | inl hf =>
          simp [instanciateList, hasSubtree_instanciate_none f hf]
      | inr hrest =>
          cases hinst : instanciate f with
          | none => simp [instanciateList, hinst]
          | some n =>
              simp [instanciateList, hinst,
                hasSubtreeList_instanciateList_none rest hrest]

end

mutual

/-- A factory tree containing a `Subtree` node cannot be flattened: the
build panics (`optimize_inner`, `src/tree/factory.rs` line 23). -/
def hasSubtree_optimize_none {L : Type} :
    ∀ f : NodeFactory L, hasSubtree f = true → optimize f = none
  | NodeFactory.leaf _, h => by simp [hasSubtree] at h
  | NodeFactory.sequence cs, h => by
      simp only [hasSubtree] at h
      simp [optimize, hasSubtreeList_optimizeList_none cs h]
  | NodeFactory.priority cs, h => by
      simp only [hasSubtree] at h
      simp [optimize, hasSubtreeList_optimizeList_none cs h]
  | NodeFactory.selector cs, h => by
      simp only [hasSubtree] at h
      simp [optimize, hasSubtreeList_optimizeList_none cs h]
  | NodeFactory.blackboard ch _, h => by
      simp only [hasSubtree] at h
      simp [optimize, hasSubtree_optimize_none ch h]
  | NodeFactory.inverter ch, h => by
      simp only [hasSubtree] at h
      simp [optimize, hasSubtree_optimize_none ch h]
  | NodeFactory.subtree _, _ => by simp [optimize]

/-- List version of `hasSubtree_optimize_none`. -/
def hasSubtreeList_optimizeList_none {L : Type} :
    ∀ fs : List (NodeFactory L), hasSubtreeList fs = true → optimizeList fs = none
  | [], h => by simp [hasSubtreeList] at h
  | f :: rest, h => by
      simp only [hasSubtreeList, Bool.or_eq_true] at h
      cases h with
      | inl hf =>
          simp [optimizeList, hasSubtree_optimize_none f hf]
      | inr hrest =>
          cases hopt : optimize f with
          | none => simp [optimizeList, hopt]
          | some n =>
              simp [optimizeList, hopt,
                hasSubtreeList_optimizeList_none rest hrest]

end

/-- C9: Any factory tree containing a `subtree` node aborts fatally in both
build operations — `instanciate` (via the `panic!` in
`NodeFactory::instanciate`) and `optimize` (via the `panic!` in
`optimize_inner`).  The build returns no runtime tree, so the error occurs
before any tick can be evaluated. -/
theorem subtree_build_is_fatal {L : Type} (f : NodeFactory L)
    (h : hasSubtree f = true) :
    instanciate f = none ∧ optimize f = none :=
  ⟨hasSubtree_instanciate_none f h, hasSubtree_optimize_none f h⟩

/-- Witness for `subtree_build_is_fatal`: a sequence holding a leaf and a
subtree reference. -/
theorem subtree_build_is_fatal_witness :
    hasSubtree (NodeFactory.sequence [NodeFactory.leaf (), NodeFactory.subtree "other"]
        : NodeFactory Unit) = true
    ∧ (instanciate (NodeFactory.sequence [NodeFactory.leaf (), NodeFactory.subtree "other"]
        : NodeFactory Unit) = none
       ∧ optimize (NodeFactory.sequence [NodeFactory.leaf (), NodeFactory.subtree "other"]
        : NodeFactory Unit) = none) :=
  ⟨rfl, subtree_build_is_fatal _ rfl⟩

/-- C10: In both runtimes, visiting a Blackboard node returns `Failure`
immediately — child and context untouched — when the context map lacks the
node's key, and otherwise delegates to its single child
(`BlackboardNode::visit`, `src/tree/non_optimized.rs` lines 161–168;
`OptimizedBlackboardNode::visit`, `src/tree/mod.rs` lines 172–180). -/
theorem blackboard_gates_on_key {L : Type}
    (tick : L → Context → VisitResult × L × Context) :
    (∀ (ch : Node L) (key : String) (c : Context), c.containsKey key = false →
        visit tick (Node.blackboard ch key) c
          = (VisitResult.Failure, Node.blackboard ch key, c))
    ∧ (∀ (ch : Node L) (key : String) (c : Context), c.containsKey key = true →
        visit tick (Node.blackboard ch key) c
          = ((visit tick ch c).1,
             Node.blackboard (visit tick ch c).2.1 key,
             (visit tick ch c).2.2))
    ∧ (∀ (ch : OptNode L) (key : String) (c : Context), c.containsKey key = false →
        optVisit tick (OptNode.blackboard key ch) c
          = (VisitResult.Failure, OptNode.blackboard key ch, c))
    ∧ (∀ (ch : OptNode L) (key : String) (c : Context), c.containsKey key = true →
        optVisit tick (OptNode.blackboard key ch) c
          = ((optVisit tick ch c).1,
             OptNode.blackboard key (optVisit tick ch c).2.1,
             (optVisit tick ch c).2.2)) := by
  refine ⟨?_, ?_, ?_, ?_⟩
  · intro ch key c h
    simp [visit, h]
  · intro ch key c h
    rcases hv : visit tick ch c with ⟨r, ch2, c2⟩
    simp [visit, h, hv]
  · intro ch key c h
    simp [optVisit, h]
  · intro ch key c h
    rcases hv : optVisit tick ch c with ⟨r, ch2, c2⟩
    simp [optVisit, h, hv]

/-- Witness for `blackboard_gates_on_key`: key `"k"` absent from the empty
context (first clause) and present in a singleton context (second clause),
over an always-`Success` leaf. -/
theorem blackboard_gates_on_key_witness :
    (Context.containsKey ⟨[]⟩ "k" = false
      ∧ visit (constTick VisitResult.Success) (Node.blackboard (Node.leaf ()) "k") ⟨[]⟩
          = (VisitResult.Failure, Node.blackboard (Node.leaf ()) "k", ⟨[]⟩))
    ∧ (Context.containsKey ⟨[("k", StoreKind.i64 7)]⟩ "k" = true
      ∧ optVisit (constTick VisitResult.Success)
            (OptNode.blackboard "k" (OptNode.leaf ())) ⟨[("k", StoreKind.i64 7)]⟩
          = (VisitResult.Success, OptNode.blackboard "k" (OptNode.leaf ()),
             ⟨[("k", StoreKind.i64 7)]⟩)) :=
  ⟨⟨rfl, (blackboard_gates_on_key (constTick VisitResult.Success)).1 _ _ _ rfl⟩,
   ⟨rfl, by
      have h := (blackboard_gates_on_key (constTick VisitResult.Success)).2.2.2
        (OptNode.leaf ()) "k" ⟨[("k", StoreKind.i64 7)]⟩ rfl
      simpa using h⟩⟩

/-- C8: Inverters invert `Success`/`Failure` and pass `Running` through
(`InverterNode::visit`, `src/tree/non_optimized.rs` lines 184–192;
`inverter_visit`, `src/tree/mod.rs` lines 207–214).  Consequently an
inverter wrapped around an inverter of a child returns exactly what the
child returns (for all three results, in particular `Success` and
`Failure`), and a `Running` result passes unchanged through any number of
nested inverters — in both runtimes. -/
theorem inverter_involution {L : Type}
    (tick : L → Context → VisitResult × L × Context) :
    (∀ (ch : Node L) (c : Context),
        visit tick (Node.inverter (Node.inverter ch)) c
          = ((visit tick ch c).1,
             Node.inverter (Node.inverter (visit tick ch c).2.1),
             (visit tick ch c).2.2))
    ∧ (∀ (k : Nat) (ch : Node L) (c : Context) (ch2 : Node L) (c2 : Context),
        visit tick ch c = (VisitResult.Running, ch2, c2) →
        visit tick (nestInv k ch) c = (VisitResult.Running, nestInv k ch2, c2))
    ∧ (∀ (ch : OptNode L) (c : Context),
        optVisit tick (OptNode.inverter (OptNode.inverter ch)) c
          = ((optVisit tick ch c).1,
             OptNode.inverter (OptNode.inverter (optVisit tick ch c).2.1),
             (optVisit tick ch c).2.2))
    ∧ (∀ (k : Nat) (ch : OptNode L) (c : Context) (ch2 : OptNode L) (c2 : Context),
        optVisit tick ch c = (VisitResult.Running, ch2, c2) →
        optVisit tick (optNestInv k ch) c
          = (VisitResult.Running, optNestInv k ch2, c2)) := by
  refine ⟨?_, ?_, ?_, ?_⟩
  · intro ch c
    rcases hv : visit tick ch c with ⟨r, ch2, c2⟩
    cases r <;> simp [visit, hv]
  · intro k
    induction k with
    | zero => intro ch c ch2 c2 h; simpa [nestInv] using h
    | succ k ih =>
        intro ch c ch2 c2 h
        simp [nestInv, visit, ih ch c ch2 c2 h]
  · intro ch c
    rcases hv : optVisit tick ch c with ⟨r, ch2, c2⟩
    cases r <;> simp [optVisit, hv]
  · intro k
    induction k with
    | zero => intro ch c ch2 c2 h; simpa [optNestInv] using h
    | succ k ih =>
        intro ch c ch2 c2 h
        simp [optNestInv, optVisit, ih ch c ch2 c2 h]

/-- Witness for `inverter_involution`: the `Running` clauses at three nested
inverters over an always-`Running` leaf, plus the double-inverter clauses at
an always-`Success` leaf. -/
theorem inverter_involution_witness :
    (visit (constTick VisitResult.Running) (Node.leaf ()) ⟨[]⟩
        = (VisitResult.Running, Node.leaf (), ⟨[]⟩)
      ∧ visit (constTick VisitResult.Running) (nestInv 3 (Node.leaf ())) ⟨[]⟩
          = (VisitResult.Running, nestInv 3 (Node.leaf ()), ⟨[]⟩))
    ∧ (optVisit (constTick VisitResult.Running) (OptNode.leaf ()) ⟨[]⟩
        = (VisitResult.Running, OptNode.leaf (), ⟨[]⟩)
      ∧ optVisit (constTick VisitResult.Running) (optNestInv 3 (OptNode.leaf ())) ⟨[]⟩
          = (VisitResult.Running, optNestInv 3 (OptNode.leaf ()), ⟨[]⟩)) :=
  ⟨⟨rfl, (inverter_involution (constTick VisitResult.Running)).2.1 3 _ _ _ _ rfl⟩,
   ⟨rfl, (inverter_involution (constTick VisitResult.Running)).2.2.2 3 _ _ _ _ rfl⟩⟩

/-- Skipping lemma for the recursive sequence loop: iterating
`children[start..]` with `start` children skipped passes the prefix through
untouched and computes everything else from the suffix alone. -/
theorem seqLoop_skips_first {L : Type}
    (tick : L → Context → VisitResult × L × Context) :
    ∀ (pre suf : List (Node L)) (c : Context) (i : Nat),
      seqLoop tick (pre ++ suf) pre.length c i
        = ((seqLoop tick suf 0 c i).1,
           (seqLoop tick suf 0 c i).2.1,
           pre ++ (seqLoop tick suf 0 c i).2.2.1,
           (seqLoop tick suf 0 c i).2.2.2) := by
  intro pre
  induction pre with
  | nil =>
      intro suf c i
      rcases h : seqLoop tick suf 0 c i with ⟨r, run2, suf2, c2⟩
      simp [h]
  | cons a pre ih =>
      intro suf c i
      simp only [List.cons_append, List.length_cons, seqLoop, List.append_eq]
      rw [ih suf c i]

/-- Skipping lemma for the optimized sequence loop. -/
theorem optSeqLoop_skips_first {L : Type}
    (tick : L → Context → VisitResult × L × Context) (run0 : Option Nat) :
    ∀ (pre suf : List (OptNode L)) (c : Context) (i : Nat),
      optSeqLoop tick run0 (pre ++ suf) pre.length c i
        = ((optSeqLoop tick run0 suf 0 c i).1,
           (optSeqLoop tick run0 suf 0 c i).2.1,
           pre ++ (optSeqLoop tick run0 suf 0 c i).2.2.1,
           (optSeqLoop tick run0 suf 0 c i).2.2.2) := by
  intro pre
  induction pre with
  | nil =>
      intro suf c i
      rcases h : optSeqLoop tick run0 suf 0 c i with ⟨r, run2, suf2, c2⟩
      simp [h]
  | cons a pre ih =>
      intro suf c i
      simp only [List.cons_append, List.length_cons, optSeqLoop, List.append_eq]
      rw [ih suf c i]

/-- C4: A sequence node whose stored resumption index is `some n` (the state
left by a visit that returned `Running` while ticking its `n`-th child) is,
on its next visit, computed entirely from the children from position `n` on:
the loop starts at the `n`-th child with the incoming context and index `n`,
and the children `0..n-1` are returned untouched and never ticked — the
result does not depend on them, whatever they would now return.  This holds
in the recursive runtime (`SequenceNode::visit` slices `children[start..]`)
and in the flat runtime (`OptimizedSequenceNode::visit` advances the child
iterator `index` times). -/
theorem sequence_memory {L : Type}
    (tick : L → Context → VisitResult × L × Context) (n : Nat)
    (pre suf : List (Node L)) (preO sufO : List (OptNode L))
    (c cO : Context) (h1 : pre.length = n) (h2 : preO.length = n) :
    visit tick (Node.sequence (some n) (pre ++ suf)) c
      = ((seqLoop tick suf 0 c n).1,
         Node.sequence (seqLoop tick suf 0 c n).2.1
           (pre ++ (seqLoop tick suf 0 c n).2.2.1),
         (seqLoop tick suf 0 c n).2.2.2)
    ∧ optVisit tick (OptNode.sequence (some n) (preO ++ sufO)) cO
      = ((optSeqLoop tick (some n) sufO 0 cO n).1,
         OptNode.sequence (optSeqLoop tick (some n) sufO 0 cO n).2.1
           (preO ++ (optSeqLoop tick (some n) sufO 0 cO n).2.2.1),
         (optSeqLoop tick (some n) sufO 0 cO n).2.2.2) := by
  constructor
  · subst h1
    simp only [visit, Option.getD]
    rw [seqLoop_skips_first tick pre suf c pre.length]
  · subst h2
    simp only [optVisit, Option.getD]
    rw [optSeqLoop_skips_first tick (some preO.length) preO sufO cO preO.length]

/-- Witness for `sequence_memory`: a sequence resumed at child 1 whose child
0 would now return `Failure`; the visit succeeds anyway because child 0 is
skipped (its schedule is returned unconsumed), and in the flat runtime the
stored index survives the `Success` return (cf. C3). -/
theorem sequence_memory_witness :
    ([Node.leaf [VisitResult.Failure]] : List (Node (List VisitResult))).length = 1
    ∧ ([OptNode.leaf [VisitResult.Failure]] : List (OptNode (List VisitResult))).length = 1
    ∧ visit scheduleTick
        (Node.sequence (some 1)
          [Node.leaf [VisitResult.Failure], Node.leaf [VisitResult.Success]]) ⟨[]⟩
      = (VisitResult.Success,
         Node.sequence none [Node.leaf [VisitResult.Failure], Node.leaf []], ⟨[]⟩)
    ∧ optVisit scheduleTick
        (OptNode.sequence (some 1)
          [OptNode.leaf [VisitResult.Failure], OptNode.leaf [VisitResult.Success]]) ⟨[]⟩
      = (VisitResult.Success,
         OptNode.sequence (some 1)
           [OptNode.leaf [VisitResult.Failure], OptNode.leaf []], ⟨[]⟩) := by
  have h := sequence_memory scheduleTick 1
    [Node.leaf [VisitResult.Failure]] [Node.leaf [VisitResult.Success]]
    [OptNode.leaf [VisitResult.Failure]] [OptNode.leaf [VisitResult.Success]]
    ⟨[]⟩ ⟨[]⟩ rfl rfl
  exact ⟨rfl, rfl, h.1, h.2⟩

/-- If every child in the list returns `Success`, the recursive priority
loop returns `Success` with the final context. -/
theorem prioLoop_all_success {L : Type}
    (tick : L → Context → VisitResult × L × Context)
    {cs : List (Node L)} {c : Context} {cs2 : List (Node L)} {c2 : Context}
    (h : AllSucceed tick cs c cs2 c2) :
    prioLoop tick cs c = (VisitResult.Success, cs2, c2) := by
  induction h with
  | nil c => rfl
  | cons hv hrest ih => simp [prioLoop, hv, ih]

/-- After a succeeding prefix, the first child returning `Running` or
`Failure` decides the recursive priority loop; later children are untouched. -/
theorem prioLoop_first_non_success {L : Type}
    (tick : L → Context → VisitResult × L × Context)
    {pre : List (Node L)} {c : Context} {pre2 : List (Node L)} {c2 : Context}
    (h : AllSucceed tick pre c pre2 c2) :
    ∀ (ch : Node L) (rest : List (Node L)) (r : VisitResult) (ch2 : Node L)
      (c3 : Context),
      visit tick ch c2 = (r, ch2, c3) →
      (r = VisitResult.Running ∨ r = VisitResult.Failure) →
      prioLoop tick (pre ++ ch :: rest) c = (r, pre2 ++ ch2 :: rest, c3) := by
  induction h with
  | nil c =>
      intro ch rest r ch2 c3 hv hr
      rcases hr with rfl | rfl <;> simp [prioLoop, hv]
  | cons hv2 hrest ih =>
      intro ch rest r ch2 c3 hv hr
      simp [prioLoop, hv2, ih ch rest r ch2 c3 hv hr]

/-- Optimized analogue of `prioLoop_all_success`. -/
theorem optPrioLoop_all_success {L : Type}
    (tick : L → Context → VisitResult × L × Context)
    {cs : List (OptNode L)} {c : Context} {cs2 : List (OptNode L)} {c2 : Context}
    (h : OptAllSucceed tick cs c cs2 c2) :
    optPrioLoop tick cs c = (VisitResult.Success, cs2, c2) := by
  induction h with
  | nil c => rfl
  | cons hv hrest ih => simp [optPrioLoop, hv, ih]

/-- Optimized analogue of `prioLoop_first_non_success`. -/
theorem optPrioLoop_first_non_success {L : Type}
    (tick : L → Context → VisitResult × L × Context)
    {pre : List (OptNode L)} {c : Context} {pre2 : List (OptNode L)} {c2 : Context}
    (h : OptAllSucceed tick pre c pre2 c2) :
    ∀ (ch : OptNode L) (rest : List (OptNode L)) (r : VisitResult)
      (ch2 : OptNode L) (c3 : Context),
      optVisit tick ch c2 = (r, ch2, c3) →
      (r = VisitResult.Running ∨ r = VisitResult.Failure) →
      optPrioLoop tick (pre ++ ch :: rest) c = (r, pre2 ++ ch2 :: rest, c3) := by
  induction h with
  | nil c =>
      intro ch rest r ch2 c3 hv hr
      rcases hr with rfl | rfl <;> simp [optPrioLoop, hv]
  | cons hv2 hrest ih =>
      intro ch rest r ch2 c3 hv hr
      simp [optPrioLoop, hv2, ih ch rest r ch2 c3 hv hr]

/-- C5: Priority nodes keep no resumption state (their node records carry
none — see the `Node.priority`/`OptNode.priority` constructors) and every
visit iterates the children from child 0: after a prefix of children that
all return `Success` (threading the context left to right from the incoming
context), the first child returning `Running` makes the visit return
`Running` and the first child returning `Failure` makes it return `Failure`,
the remaining children untouched; if all children return `Success` the visit
returns `Success`.  This holds in both runtimes (`PriorityNode::visit`,
`src/tree/non_optimized.rs` lines 128–140; `priority_visit`,
`src/tree/mod.rs` lines 216–230). -/
theorem priority_starts_from_zero {L : Type}
    (tick : L → Context → VisitResult × L × Context) :
    (∀ (cs : List (Node L)) (c : Context) (cs2 : List (Node L)) (c2 : Context),
        AllSucceed tick cs c cs2 c2 →
        visit tick (Node.priority cs) c = (VisitResult.Success, Node.priority cs2, c2))
    ∧ (∀ (pre : List (Node L)) (c : Context) (pre2 : List (Node L)) (c2 : Context)
         (ch : Node L) (rest : List (Node L)) (r : VisitResult) (ch2 : Node L)
         (c3 : Context),
        AllSucceed tick pre c pre2 c2 →
        visit tick ch c2 = (r, ch2, c3) →
        (r = VisitResult.Running ∨ r = VisitResult.Failure) →
        visit tick (Node.priority (pre ++ ch :: rest)) c
          = (r, Node.priority (pre2 ++ ch2 :: rest), c3))
    ∧ (∀ (cs : List (OptNode L)) (c : Context) (cs2 : List (OptNode L)) (c2 : Context),
        OptAllSucceed tick cs c cs2 c2 →
        optVisit tick (OptNode.priority cs) c
          = (VisitResult.Success, OptNode.priority cs2, c2))
    ∧ (∀ (pre : List (OptNode L)) (c : Context) (pre2 : List (OptNode L)) (c2 : Context)
         (ch : OptNode L) (rest : List (OptNode L)) (r : VisitResult) (ch2 : OptNode L)
         (c3 : Context),
        OptAllSucceed tick pre c pre2 c2 →
        optVisit tick ch c2 = (r, ch2, c3) →
        (r = VisitResult.Running ∨ r = VisitResult.Failure) →
        optVisit tick (OptNode.priority (pre ++ ch :: rest)) c
          = (r, OptNode.priority (pre2 ++ ch2 :: rest), c3)) := by
  refine ⟨?_, ?_, ?_, ?_⟩
  · intro cs c cs2 c2 h
    simp [visit, prioLoop_all_success tick h]
  · intro pre c pre2 c2 ch rest r ch2 c3 h hv hr
    simp [visit, prioLoop_first_non_success tick h ch rest r ch2 c3 hv hr]
  · intro cs c cs2 c2 h
    simp [optVisit, optPrioLoop_all_success tick h]
  · intro pre c pre2 c2 ch rest r ch2 c3 h hv hr
    simp [optVisit, optPrioLoop_first_non_success tick h ch rest r ch2 c3 hv hr]

/-- Witness for `priority_starts_from_zero`: a succeeding first child
followed by a failing one — the priority returns `Failure` and the third
child's schedule is untouched. -/
theorem priority_starts_from_zero_witness :
    AllSucceed scheduleTick [Node.leaf [VisitResult.Success]] ⟨[]⟩ [Node.leaf []] ⟨[]⟩
    ∧ visit scheduleTick (Node.leaf [VisitResult.Failure]) ⟨[]⟩
        = (VisitResult.Failure, Node.leaf [], ⟨[]⟩)
    ∧ visit scheduleTick
        (Node.priority
          ([Node.leaf [VisitResult.Success]]
            ++ Node.leaf [VisitResult.Failure] :: [Node.leaf [VisitResult.Running]])) ⟨[]⟩
      = (VisitResult.Failure,
         Node.priority ([Node.leaf []] ++ Node.leaf [] :: [Node.leaf [VisitResult.Running]]),
         ⟨[]⟩) :=
  ⟨AllSucceed.cons rfl (AllSucceed.nil ⟨[]⟩), rfl,
   (priority_starts_from_zero scheduleTick).2.1
     [Node.leaf [VisitResult.Success]] ⟨[]⟩ [Node.leaf []] ⟨[]⟩
     (Node.leaf [VisitResult.Failure]) [Node.leaf [VisitResult.Running]]
     VisitResult.Failure (Node.leaf []) ⟨[]⟩
     (AllSucceed.cons rfl (AllSucceed.nil ⟨[]⟩)) rfl (Or.inr rfl)⟩

/-- If every element of the array is an operand, compilation succeeds. -/
theorem generate_ok_of_all :
    ∀ arr : List Value, arr.all isOperand = true →
      ∃ ms, generate_postfixed_expression arr = Except.ok ms := by
  intro arr
  induction arr with
  | nil => intro _; exact ⟨[], rfl⟩
  | cons v rest ih =>
      intro h
      simp only [List.all_cons, Bool.and_eq_true] at h
      obtain ⟨h1, h2⟩ := h
      obtain ⟨ms, hg⟩ := ih h2
      cases v with
      | string s =>
          exact ⟨PostfixedExpressionMember.Variable s :: ms,
            by simp [generate_postfixed_expression, hg, Except.map]⟩
      | integer n =>
          exact ⟨PostfixedExpressionMember.Constant n :: ms,
            by simp [generate_postfixed_expression, hg, Except.map]⟩
      | operator o =>
          exact ⟨PostfixedExpressionMember.Op o :: ms,
            by simp [generate_postfixed_expression, hg, Except.map]⟩
      | map entries => exact absurd h1 (by simp [isOperand])
      | array elems => exact absurd h1 (by simp [isOperand])
      | unknown ch => exact absurd h1 (by simp [isOperand])

/-- If compilation succeeds, every element of the array is an operand. -/
theorem all_of_generate_ok :
    ∀ (arr : List Value) (ms : List PostfixedExpressionMember),
      generate_postfixed_expression arr = Except.ok ms → arr.all isOperand = true := by
  intro arr
  induction arr with
  | nil => intro ms _; rfl
  | cons v rest ih =>
      intro ms h
      cases v <;> simp only [generate_postfixed_expression] at h <;>
        first
        | (cases hg : generate_postfixed_expression rest with
           | ok ms2 => simp [List.all_cons, isOperand, ih ms2 hg]
           | error e => rw [hg] at h; simp [Except.map] at h)
        | simp at h

/-- A compilation error names the first non-operand element of the array:
the elements before it are all operands. -/
theorem generate_error_first :
    ∀ (arr : List Value) (v : Value),
      generate_postfixed_expression arr = Except.error v →
      ∃ pre post, arr = pre ++ v :: post ∧ pre.all isOperand = true
        ∧ isOperand v = false := by
  intro arr
  induction arr with
  | nil => intro v h; simp [generate_postfixed_expression] at h
  | cons a rest ih =>
      intro v h
      cases a <;> simp only [generate_postfixed_expression] at h
      case string s =>
          cases hg : generate_postfixed_expression rest with
          | ok ms2 => rw [hg] at h; simp [Except.map] at h
          | error e =>
              rw [hg] at h; simp [Except.map] at h
              obtain ⟨pre, post, heq, hall, hop⟩ := ih v (h ▸ hg)
              exact ⟨Value.string s :: pre, post, by simp [heq], by simp [isOperand, hall], hop⟩
      case integer n =>
          cases hg : generate_postfixed_expression rest with
          | ok ms2 => rw [hg] at h; simp [Except.map] at h
          | error e =>
              rw [hg] at h; simp [Except.map] at h
              obtain ⟨pre, post, heq, hall, hop⟩ := ih v (h ▸ hg)
              exact ⟨Value.integer n :: pre, post, by simp [heq], by simp [isOperand, hall], hop⟩
      case operator o =>
          cases hg : generate_postfixed_expression rest with
          | ok ms2 => rw [hg] at h; simp [Except.map] at h
          | error e =>
              rw [hg] at h; simp [Except.map] at h
              obtain ⟨pre, post, heq, hall, hop⟩ := ih v (h ▸ hg)
              exact ⟨Value.operator o :: pre, post, by simp [heq], by simp [isOperand, hall], hop⟩
      case map entries =>
          obtain rfl : Value.map entries = v := by
            injection h
          exact ⟨[], rest, rfl, rfl, rfl⟩
      case array elems =>
          obtain rfl : Value.array elems = v := by
            injection h
          exact ⟨[], rest, rfl, rfl, rfl⟩
      case unknown ch =>
          obtain rfl : Value.unknown ch = v := by
            injection h
          exact ⟨[], rest, rfl, rfl, rfl⟩

/-- Wrap-around is the identity on values already in the `i64` range. -/
theorem wrapI64_eq_self (n : Int) (h1 : i64Min ≤ n) (h2 : n ≤ i64Max) :
    wrapI64 n = n := by
  simp only [i64Min, i64Max] at h1 h2
  simp only [wrapI64]
  rw [Int.emod_eq_of_lt (by omega) (by omega)]
  omega

/-- Whenever the exact mathematical step is defined, the `i64` machine step
computes exactly it: in-range additions, subtractions and multiplications
are not wrapped, and the division branches coincide. -/
theorem applyOp_of_checkedOp (o : Operator) (v1 v2 v : Int)
    (h : checkedOp o v1 v2 = some v) : applyOp o v1 v2 = some v := by
  cases o with
  | Plus =>
      simp only [checkedOp] at h
      split at h
      · next hin =>
          obtain rfl : v1 + v2 = v := by simpa using h
          simp [applyOp, wrapI64_eq_self _ hin.1 hin.2]
      · simp at h
  | Minus =>
      simp only [checkedOp] at h
      split at h
      · next hin =>
          obtain rfl : v1 - v2 = v := by simpa using h
          simp [applyOp, wrapI64_eq_self _ hin.1 hin.2]
      · simp at h
  | Multiply =>
      simp only [checkedOp] at h
      split at h
      · next hin =>
          obtain rfl : v1 * v2 = v := by simpa using h
          simp [applyOp, wrapI64_eq_self _ hin.1 hin.2]
      · simp at h
  | Divide =>
      simpa only [checkedOp, applyOp] using h

/-- Compiler correctness for one expression: running the encoding of `e`
pushes the value of `e` on the stack and continues. -/
theorem runExpression_encode (ctx : Context) :
    ∀ (e : Expr) (v : Int), Expr.eval ctx e = some v →
      ∀ (rest : List PostfixedExpressionMember) (stack : List Int),
        runExpression ctx (Expr.encode e ++ rest) stack
          = runExpression ctx rest (v :: stack) := by
  intro e
  induction e with
  | const n =>
      intro v h rest stack
      obtain rfl : n = v := by simpa [Expr.eval] using h
      simp [Expr.encode, runExpression]
  | var name =>
      intro v h rest stack
      cases hg : ctx.get name with
      | none => simp [Expr.eval, hg] at h
      | some sk =>
          cases sk with
          | string s => simp [Expr.eval, hg] at h
          | i64 x =>
              obtain rfl : x = v := by simpa [Expr.eval, hg] using h
              simp [Expr.encode, runExpression, hg]
  | binop o e1 e2 ih1 ih2 =>
      intro v h rest stack
      cases h1 : Expr.eval ctx e1 with
      | none => simp [Expr.eval, h1] at h
      | some v1 =>
          cases h2 : Expr.eval ctx e2 with
          | none => simp [Expr.eval, h1, h2] at h
          | some v2 =>
              have hc : checkedOp o v1 v2 = some v := by
                simpa [Expr.eval, h1, h2] using h
              have ha : applyOp o v1 v2 = some v :=
                applyOp_of_checkedOp o v1 v2 v hc
              simp only [Expr.encode, List.append_assoc]
              rw [ih1 v1 h1, ih2 v2 h2]
              simp [runExpression, ha]

/-- Evaluating the encoding of an expression that has a value yields exactly
that value: the run ends with a one-element stack, so the final pop and the
emptiness assertion both pass. -/
theorem evaluate_encode (ctx : Context) (e : Expr) (v : Int)
    (h : Expr.eval ctx e = some v) :
    evaluate_expression_int ctx (Expr.encode e) = some v := by
  have hrun := runExpression_encode ctx e v h [] []
  rw [List.append_nil] at hrun
  simp [evaluate_expression_int, hrun, runExpression]

/-- A successful run of the member loop respects the stack-arity count. -/
theorem runExpression_checkArity (ctx : Context) :
    ∀ (ms : List PostfixedExpressionMember) (stack stack2 : List Int),
      runExpression ctx ms stack = some stack2 →
      checkArity ms stack.length = some stack2.length := by
  intro ms
  induction ms with
  | nil =>
      intro stack stack2 h
      obtain rfl : stack = stack2 := by simpa [runExpression] using h
      rfl
  | cons m rest ih =>
      intro stack stack2 h
      cases m with
      | Constant value =>
          simp only [runExpression] at h
          simpa [checkArity] using ih (value :: stack) stack2 h
      | Variable name =>
          cases hg : ctx.get name with
          | none => simp [runExpression, hg] at h
          | some sk =>
              cases sk with
              | string s => simp [runExpression, hg] at h
              | i64 value =>
                  simp only [runExpression, hg] at h
                  simpa [checkArity] using ih (value :: stack) stack2 h
      | Op o =>
          match stack with
          | [] => simp [runExpression] at h
          | [x] => simp [runExpression] at h
          | m2 :: m1 :: stack3 =>
              cases ha : applyOp o m1 m2 with
              | none => simp [runExpression, ha] at h
              | some result =>
                  simp only [runExpression, ha] at h
                  simpa [checkArity] using ih (result :: stack3) stack2 h

/-- An ill-formed postfix program — one whose arity check from the empty
stack does not end with exactly one value — is detected fatally at
evaluation: a stack underflow aborts the run, and a residue fails the final
pop-and-assert. -/
theorem evaluate_none_of_ill_formed (ctx : Context)
    (prog : List PostfixedExpressionMember) (h : checkArity prog 0 ≠ some 1) :
    evaluate_expression_int ctx prog = none := by
  cases hr : runExpression ctx prog [] with
  | none => simp [evaluate_expression_int, hr]
  | some stack2 =>
      have harity := runExpression_checkArity ctx prog [] stack2 hr
      match stack2, harity with
      | [], _ => simp [evaluate_expression_int, hr]
      | [r], harity => exact absurd harity (by simpa using h)
      | a :: b :: t, _ => simp [evaluate_expression_int, hr]

/-- C7 (amended): The expression compiler `generate_postfixed_expression`
succeeds exactly when every array element is a string (→ `Variable`), an
integer (→ `Constant`) or an operator (→ `Op`), and on failure reports the
first offending element.  The evaluator `evaluate_expression_int` computes,
for the encoding of any infix expression whose mathematical value over the
context's integer variables is `v` — defined on `i64`: every addition,
subtraction and multiplication result in range (no overflow) and no fatal
division — exactly `v`; on overflow the machine instead wraps and does not
return the mathematical value.  Any ill-formed program — stack underflow or
more than one value left at the end — is detected fatally (the evaluation
panics, modelled by `none`). -/
theorem expression_compile_and_evaluate :
    (∀ arr : List Value,
        (∃ ms, generate_postfixed_expression arr = Except.ok ms)
          ↔ arr.all isOperand = true)
    ∧ (∀ (arr : List Value) (v : Value),
        generate_postfixed_expression arr = Except.error v →
        ∃ pre post, arr = pre ++ v :: post ∧ pre.all isOperand = true
          ∧ isOperand v = false)
    ∧ (∀ (ctx : Context) (e : Expr) (v : Int),
        Expr.eval ctx e = some v →
        evaluate_expression_int ctx (Expr.encode e) = some v)
    ∧ (∀ (ctx : Context) (prog : List PostfixedExpressionMember),
        checkArity prog 0 ≠ some 1 →
        evaluate_expression_int ctx prog = none) :=
  ⟨fun arr =>
      ⟨fun ⟨ms, hg⟩ => all_of_generate_ok arr ms hg,
       generate_ok_of_all arr⟩,
   generate_error_first,
   evaluate_encode,
   evaluate_none_of_ill_formed⟩

/-- Witness for `expression_compile_and_evaluate`, exercising all four
clauses: `[1, 2, +]` compiles and evaluates to `3` (the test
`evaluate_int` of `expressions.rs`); `[1, {…}]` errors naming the map
element; `[1, 2, +, *]` (the test `incorrect_expression`) is ill-formed and
evaluation is fatal. -/
theorem expression_compile_and_evaluate_witness :
    ([Value.integer 1, Value.integer 2, Value.operator Operator.Plus].all isOperand = true
      ∧ (∃ ms, generate_postfixed_expression
          [Value.integer 1, Value.integer 2, Value.operator Operator.Plus] = Except.ok ms))
    ∧ (generate_postfixed_expression [Value.integer 1, Value.map []]
          = Except.error (Value.map [])
      ∧ (∃ pre post,
          [Value.integer 1, Value.map []] = pre ++ Value.map [] :: post
            ∧ pre.all isOperand = true ∧ isOperand (Value.map []) = false))
    ∧ (Expr.eval ⟨[]⟩ (Expr.binop Operator.Plus (Expr.const 1) (Expr.const 2)) = some 3
      ∧ evaluate_expression_int ⟨[]⟩
          (Expr.encode (Expr.binop Operator.Plus (Expr.const 1) (Expr.const 2))) = some 3)
    ∧ (checkArity [PostfixedExpressionMember.Constant 1, PostfixedExpressionMember.Constant 2,
          PostfixedExpressionMember.Op Operator.Plus, PostfixedExpressionMember.Op Operator.Multiply] 0
          ≠ some 1
      ∧ evaluate_expression_int ⟨[]⟩
          [PostfixedExpressionMember.Constant 1, PostfixedExpressionMember.Constant 2,
           PostfixedExpressionMember.Op Operator.Plus, PostfixedExpressionMember.Op Operator.Multiply]
          = none) :=
  ⟨⟨rfl, (expression_compile_and_evaluate.1 _).mpr rfl⟩,
   ⟨rfl, expression_compile_and_evaluate.2.1 _ _ rfl⟩,
   ⟨rfl, expression_compile_and_evaluate.2.2.1 ⟨[]⟩ _ 3 rfl⟩,
   ⟨by decide, expression_compile_and_evaluate.2.2.2 ⟨[]⟩ _ (by decide)⟩⟩

/-- C7 counterexample: the claim as stated — that evaluating every
well-formed compiled postfix program returns the mathematical value of the
infix expression it encodes — fails on overflow.  The encoding of
`2^62 + 2^62` is well formed (its arity check passes) and references no
variables, its mathematical value is `2^63 = 9223372036854775808`, yet the
`i64` evaluator wraps and returns `-2^63` instead. -/
theorem evaluate_overflow_wraps :
    checkArity (Expr.encode (Expr.binop Operator.Plus
        (Expr.const 4611686018427387904) (Expr.const 4611686018427387904))) 0 = some 1
    ∧ evaluate_expression_int ⟨[]⟩
        (Expr.encode (Expr.binop Operator.Plus
          (Expr.const 4611686018427387904) (Expr.const 4611686018427387904)))
        = some (-9223372036854775808)
    ∧ (4611686018427387904 + 4611686018427387904 : Int) = 9223372036854775808
    ∧ ((-9223372036854775808 : Int) ≠ 9223372036854775808) := by
  refine ⟨by decide, by decide, by decide, by decide⟩
